import Mathlib

/- Verification of the controller-input subsystem and the bounded pin-aware
   history container of XiPrtScr (src/main.pyw), shallowly embedded in Lean.

   The embedding mirrors the Python source:
   - `XInput.MappedStates`  -> `MappedStates` (all 21 dataclass fields);
   - `XInput.Event` and its wildcard-aware `__eq__` -> `Event`, `eventMatch`;
   - `XInput.__update_states` -> `updateStates` (state advance + queued events);
   - `XInput.update` / `__handle_events` / `App.__poll_for_xinput`
     -> the `PollState` transition system (`xupdate`, `PollStep`, `Reachable`);
   - `App.deque_append_with_predicate` -> `deque_append_with_predicate`;
   - Python `deque(iterable, maxlen=m)` (used by `App._reset_images`)
     -> `dequeFrom` (element-wise append, dropping from the left when full);
   - Python `deque.rotate(n)` (used by the View menu commands) -> `dequeRotate`;
   - `App._xinput_ltrt_command_action_take` -> `ltrtTake`. -/

namespace XiPrtScr

/-- Event kind, mirroring `XInput.Event.type`:
`Literal["press", "release", "any"]`. -/
inductive EvType where
  | press
  | release
  | anyType
deriving DecidableEq, Repr

/-- Event source, mirroring `XInput.Event.key`:
`Literal["LeftTrigger", "RightTrigger", "Any"]`. -/
inductive EvKey where
  | leftTrigger
  | rightTrigger
  | anyKey
deriving DecidableEq, Repr

/-- `XInput.Event`: a kind (`type`) and a source (`key`). -/
structure Event where
  type : EvType
  key : EvKey
deriving DecidableEq, Repr

/-- `XInput.Event.__eq__` (main.pyw lines 100-103): wildcard-aware equality.
`(self.type == other.type or self.type == "any" or other.type == "any") and
 (self.key == other.key or self.key == "Any" or other.key == "Any")`. -/
def eventMatch (a b : Event) : Bool :=
  (decide (a.type = b.type) || decide (a.type = EvType.anyType)
      || decide (b.type = EvType.anyType))
    && (decide (a.key = b.key) || decide (a.key = EvKey.anyKey)
      || decide (b.key = EvKey.anyKey))

/-- `XInput.MappedStates`: one immutable controller snapshot.  Trigger
magnitudes come from `c_ubyte` (0-255), thumb axes from `c_short`, buttons
are booleans decoded from the `wButtons` bitset. -/
structure MappedStates where
  PacketNumber : Nat
  LeftTrigger : Nat
  RightTrigger : Nat
  ThumbLX : Int
  ThumbLY : Int
  ThumbRX : Int
  ThumbRY : Int
  DpadUp : Bool
  DpadDown : Bool
  DpadLeft : Bool
  DpadRight : Bool
  Start : Bool
  Back : Bool
  LeftThumb : Bool
  RightThumb : Bool
  LeftShoulder : Bool
  RightShoulder : Bool
  A : Bool
  B : Bool
  X : Bool
  Y : Bool
deriving DecidableEq, Repr

/-- The dataclass defaults of `XInput.MappedStates` (all zero / False);
`XInput.__init__` uses this as the initial `__prev_states`. -/
def defaultStates : MappedStates :=
  ⟨0, 0, 0, 0, 0, 0, 0, false, false, false, false, false, false, false,
    false, false, false, false, false, false, false⟩

/-- `XInput.__update_states` (main.pyw lines 122-136).  Returns the stored
previous snapshot after the call together with the list of events put on the
queue, in queue order (left trigger checked first, then right).  On a stale
packet number the method returns before the `self.__prev_states = new_states`
assignment, so the first component is `prev` unchanged. -/
def updateStates (prev nxt : MappedStates) : MappedStates × List Event :=
  if prev.PacketNumber = nxt.PacketNumber then (prev, [])
  else
    (nxt,
      (if prev.LeftTrigger ≠ nxt.LeftTrigger then
        if nxt.LeftTrigger = 255 then [⟨EvType.press, EvKey.leftTrigger⟩]
        else if nxt.LeftTrigger = 0 then [⟨EvType.release, EvKey.leftTrigger⟩]
        else []
      else []) ++
      (if prev.RightTrigger ≠ nxt.RightTrigger then
        if nxt.RightTrigger = 255 then [⟨EvType.press, EvKey.rightTrigger⟩]
        else if nxt.RightTrigger = 0 then [⟨EvType.release, EvKey.rightTrigger⟩]
        else []
      else []))

/-- Concrete snapshots used in witnesses and counterexamples. -/
def msPrev1 : MappedStates :=
  { defaultStates with PacketNumber := 1, RightTrigger := 255 }

def msNext1 : MappedStates :=
  { defaultStates with PacketNumber := 2, LeftTrigger := 255, RightTrigger := 0 }

/-- Two snapshots with the same packet number but different trigger values. -/
def msStaleNext : MappedStates :=
  { defaultStates with PacketNumber := 1, LeftTrigger := 255 }

def msStalePrev : MappedStates :=
  { defaultStates with PacketNumber := 1 }

/-- C2: for every pair of controller states with equal packet sequence
numbers, translation produces no events, whatever the trigger magnitudes of
the two states are. -/
theorem stale_packet_no_events (prev nxt : MappedStates)
    (h : prev.PacketNumber = nxt.PacketNumber) :
    (updateStates prev nxt).2 = [] := by
  simp [updateStates, h]

theorem stale_packet_no_events_witness :
    msStalePrev.PacketNumber = msStaleNext.PacketNumber ∧
      (updateStates msStalePrev msStaleNext).2 = [] :=
  ⟨by decide, stale_packet_no_events msStalePrev msStaleNext (by decide)⟩

/-- C6: event matching is wildcard-aware and symmetric: two events match
iff their kinds are equal or either kind is the wildcard, and their sources
are equal or either source is the wildcard; the all-wildcard pattern matches
every event; `(press, Any)` matches `press(LeftTrigger)` and
`press(RightTrigger)` but not `release(LeftTrigger)`. -/
theorem event_match_wildcard (a b : Event) :
    (eventMatch a b = true ↔
      ((a.type = b.type ∨ a.type = EvType.anyType ∨ b.type = EvType.anyType) ∧
        (a.key = b.key ∨ a.key = EvKey.anyKey ∨ b.key = EvKey.anyKey))) ∧
    eventMatch a b = eventMatch b a ∧
    eventMatch ⟨EvType.anyType, EvKey.anyKey⟩ a = true ∧
    (eventMatch ⟨EvType.press, EvKey.anyKey⟩ ⟨EvType.press, EvKey.leftTrigger⟩ = true ∧
      eventMatch ⟨EvType.press, EvKey.anyKey⟩ ⟨EvType.press, EvKey.rightTrigger⟩ = true ∧
      eventMatch ⟨EvType.press, EvKey.anyKey⟩ ⟨EvType.release, EvKey.leftTrigger⟩ = false) := by
  obtain ⟨ta, ka⟩ := a
  obtain ⟨tb, kb⟩ := b
  refine ⟨?_, ?_, ?_, by decide⟩
  · simp only [eventMatch, Bool.and_eq_true, Bool.or_eq_true, decide_eq_true_eq]
    tauto
  · cases ta <;> cases tb <;> cases ka <;> cases kb <;> rfl
  · cases ta <;> cases ka <;> rfl

theorem event_match_wildcard_witness :
    (eventMatch ⟨EvType.press, EvKey.anyKey⟩ ⟨EvType.press, EvKey.leftTrigger⟩ = true ↔
      ((EvType.press = EvType.press ∨ EvType.press = EvType.anyType ∨
          EvType.press = EvType.anyType) ∧
        (EvKey.anyKey = EvKey.leftTrigger ∨ EvKey.anyKey = EvKey.anyKey ∨
          EvKey.leftTrigger = EvKey.anyKey))) ∧
    eventMatch ⟨EvType.press, EvKey.anyKey⟩ ⟨EvType.press, EvKey.leftTrigger⟩ =
      eventMatch ⟨EvType.press, EvKey.leftTrigger⟩ ⟨EvType.press, EvKey.anyKey⟩ ∧
    eventMatch ⟨EvType.anyType, EvKey.anyKey⟩ ⟨EvType.press, EvKey.leftTrigger⟩ = true ∧
    (eventMatch ⟨EvType.press, EvKey.anyKey⟩ ⟨EvType.press, EvKey.leftTrigger⟩ = true ∧
      eventMatch ⟨EvType.press, EvKey.anyKey⟩ ⟨EvType.press, EvKey.rightTrigger⟩ = true ∧
      eventMatch ⟨EvType.press, EvKey.anyKey⟩ ⟨EvType.release, EvKey.leftTrigger⟩ = false) :=
  event_match_wildcard ⟨EvType.press, EvKey.anyKey⟩ ⟨EvType.press, EvKey.leftTrigger⟩

/-- C8 counterexample: on a stale packet number `__update_states` returns
before the `self.__prev_states = new_states` assignment, so the current
snapshot does NOT become the stored previous snapshot: with equal packet
numbers but a different left-trigger magnitude, the stored previous after the
call still differs from the current snapshot. -/
theorem translate_stale_prev_cex :
    msStalePrev.PacketNumber = msStaleNext.PacketNumber ∧
      (updateStates msStalePrev msStaleNext).1 ≠ msStaleNext ∧
      (updateStates msStalePrev msStaleNext).1 = msStalePrev := by
  decide

/-- C8 amended: after a call whose packet number differs from the stored
previous, the current snapshot becomes the stored previous (even when no
event is emitted); on a call with an unchanged packet number, the stored
previous is left unchanged rather than advanced. -/
theorem translate_prev_advance (prev nxt : MappedStates) :
    (prev.PacketNumber ≠ nxt.PacketNumber → (updateStates prev nxt).1 = nxt) ∧
    (prev.PacketNumber = nxt.PacketNumber → (updateStates prev nxt).1 = prev) := by
  constructor
  · intro h
    simp [updateStates, h]
  · intro h
    simp [updateStates, h]

theorem translate_prev_advance_witness :
    (updateStates msPrev1 msNext1).1 = msNext1 ∧
      (updateStates msStalePrev msStaleNext).1 = msStalePrev :=
  ⟨(translate_prev_advance msPrev1 msNext1).1 (by decide),
    (translate_prev_advance msStalePrev msStaleNext).2 (by decide)⟩

/-- The events of a translation that concern the left trigger axis. -/
def leftEventsOf (evs : List Event) : List Event :=
  evs.filter (fun e => decide (e.key = EvKey.leftTrigger))

/-- The events of a translation that concern the right trigger axis. -/
def rightEventsOf (evs : List Event) : List Event :=
  evs.filter (fun e => decide (e.key = EvKey.rightTrigger))

/-- C3: with differing packet numbers, each trigger axis independently emits
exactly one press event when its magnitude changed to exactly 255, exactly
one release event when it changed to exactly 0, and nothing when the new
magnitude is in 1-254; the whole event list is the left-axis events followed
by the right-axis events, so a left edge is always emitted before a right
edge occurring in the same call. -/
theorem trigger_edge_events (prev nxt : MappedStates)
    (h : prev.PacketNumber ≠ nxt.PacketNumber) :
    (prev.LeftTrigger ≠ nxt.LeftTrigger → nxt.LeftTrigger = 255 →
      leftEventsOf (updateStates prev nxt).2 = [⟨EvType.press, EvKey.leftTrigger⟩]) ∧
    (prev.LeftTrigger ≠ nxt.LeftTrigger → nxt.LeftTrigger = 0 →
      leftEventsOf (updateStates prev nxt).2 = [⟨EvType.release, EvKey.leftTrigger⟩]) ∧
    (1 ≤ nxt.LeftTrigger → nxt.LeftTrigger ≤ 254 →
      leftEventsOf (updateStates prev nxt).2 = []) ∧
    (prev.RightTrigger ≠ nxt.RightTrigger → nxt.RightTrigger = 255 →
      rightEventsOf (updateStates prev nxt).2 = [⟨EvType.press, EvKey.rightTrigger⟩]) ∧
    (prev.RightTrigger ≠ nxt.RightTrigger → nxt.RightTrigger = 0 →
      rightEventsOf (updateStates prev nxt).2 = [⟨EvType.release, EvKey.rightTrigger⟩]) ∧
    (1 ≤ nxt.RightTrigger → nxt.RightTrigger ≤ 254 →
      rightEventsOf (updateStates prev nxt).2 = []) ∧
    (updateStates prev nxt).2 =
      leftEventsOf (updateStates prev nxt).2 ++ rightEventsOf (updateStates prev nxt).2 := by
  simp only [updateStates, if_neg h, leftEventsOf, rightEventsOf]
  split_ifs <;> simp_all

theorem trigger_edge_events_witness :
    leftEventsOf (updateStates msPrev1 msNext1).2 =
        [⟨EvType.press, EvKey.leftTrigger⟩] ∧
      rightEventsOf (updateStates msPrev1 msNext1).2 =
        [⟨EvType.release, EvKey.rightTrigger⟩] ∧
      (updateStates msPrev1 msNext1).2 =
        [⟨EvType.press, EvKey.leftTrigger⟩, ⟨EvType.release, EvKey.rightTrigger⟩] :=
  ⟨(trigger_edge_events msPrev1 msNext1 (by decide)).1 (by decide) (by decide),
    (trigger_edge_events msPrev1 msNext1 (by decide)).2.2.2.2.1 (by decide) (by decide),
    by decide⟩

/-- `ImageComposite` (main.pyw lines 196-203): one captured screenshot.  The
image payloads are opaque to the core, so only the display name and the
`pinnation` flag are modelled. -/
structure ImageComposite where
  filename : String
  pinned : Bool
deriving DecidableEq, Repr

/-- The predicate `App.add_image` passes to `deque_append_with_predicate`:
`lambda image: image.pinnation.get()`. -/
def pinnedOf (i : ImageComposite) : Bool := i.pinned

/-- Removal of the first element failing the predicate, as performed by the
scan loop in `App.deque_append_with_predicate`: `for object in dq: if not
predicate(object): dq.remove(object); break`.  (`dq.remove` deletes the first
element equal to the scanned victim; any earlier equal element would have the
same predicate value and would itself have ended the scan, so the element
deleted is exactly the first one failing the predicate.) -/
def removeFirstNot (p : α → Bool) : List α → List α
  | [] => []
  | x :: xs => if p x then x :: removeFirstNot p xs else xs

/-- `App.deque_append_with_predicate` (main.pyw lines 677-688): when the
deque is at its `maxlen`, scan for the first element failing the predicate;
if one exists remove it and append, otherwise (`for`-`else`) return without
appending; when below `maxlen`, just append. -/
def deque_append_with_predicate (maxlen : Nat) (p : α → Bool)
    (dq : List α) (x : α) : List α :=
  if dq.length = maxlen then
    if dq.any (fun y => !p y) then removeFirstNot p dq ++ [x] else dq
  else dq ++ [x]

theorem removeFirstNot_of_all (p : α → Bool) (pre : List α) (v : α)
    (post : List α) (hpre : ∀ y ∈ pre, p y = true) (hv : p v = false) :
    removeFirstNot p (pre ++ v :: post) = pre ++ post := by
  induction pre with
  | nil => simp [removeFirstNot, hv]
  | cons a t ih =>
    have ha : p a = true := hpre a (by simp)
    simp only [List.cons_append, removeFirstNot, ha, if_pos, List.append_eq]
    rw [ih (fun y hy => hpre y (by simp [hy]))]

/-- C1: at capacity, insertion removes exactly the first unpinned item (the
first item failing the predicate) and appends the new one; at capacity with
every item pinned, insertion is a silent no-op dropping the new item; below
capacity, insertion just appends. -/
theorem insert_eviction_policy (maxlen : Nat) (p : α → Bool)
    (dq : List α) (x : α) :
    (dq.length < maxlen →
      deque_append_with_predicate maxlen p dq x = dq ++ [x]) ∧
    (dq.length = maxlen → (∀ y ∈ dq, p y = true) →
      deque_append_with_predicate maxlen p dq x = dq) ∧
    (dq.length = maxlen → ∀ pre v post, dq = pre ++ v :: post →
      (∀ y ∈ pre, p y = true) → p v = false →
      deque_append_with_predicate maxlen p dq x = (pre ++ post) ++ [x]) := by
  refine ⟨fun hlt => ?_, fun heq hall => ?_, fun heq pre v post hdq hpre hv => ?_⟩
  · rw [deque_append_with_predicate, if_neg (by omega)]
  · rw [deque_append_with_predicate, if_pos heq, if_neg ?_]
    simp only [List.any_eq_true, Bool.not_eq_eq_eq_not, Bool.not_true, not_exists,
      not_and]
    intro y hy
    simp [hall y hy]
  · rw [deque_append_with_predicate, if_pos heq, if_pos ?_,
      hdq, removeFirstNot_of_all p pre v post hpre hv]
    rw [hdq]
    refine List.any_eq_true.2 ⟨v, by simp, by simp [hv]⟩

/-- Concrete items used in witnesses and counterexamples. -/
def imgP : ImageComposite := ⟨"pinnedshot", true⟩

def imgU : ImageComposite := ⟨"unpinnedshot", false⟩

def imgN : ImageComposite := ⟨"newshot", false⟩

theorem insert_eviction_policy_witness :
    deque_append_with_predicate 3 pinnedOf [imgP, imgU] imgN =
        [imgP, imgU, imgN] ∧
      deque_append_with_predicate 2 pinnedOf [imgP, imgP] imgN =
        [imgP, imgP] ∧
      deque_append_with_predicate 2 pinnedOf [imgP, imgU] imgN =
        [imgP, imgN] :=
  ⟨(insert_eviction_policy 3 pinnedOf [imgP, imgU] imgN).1 (by decide),
    (insert_eviction_policy 2 pinnedOf [imgP, imgP] imgN).2.1 (by decide)
      (by decide),
    (insert_eviction_policy 2 pinnedOf [imgP, imgU] imgN).2.2 (by decide)
      [imgP] imgU [] (by decide) (by decide) (by decide)⟩

/-- One append onto a Python deque with `maxlen`: when the deque is full the
leftmost element is discarded, so the result is the last `maxlen` elements of
`dq ++ [x]`. -/
def dequePush (maxlen : Nat) (dq : List α) (x : α) : List α :=
  (dq ++ [x]).drop (dq.length + 1 - maxlen)

/-- Python `deque(iterable, maxlen=m)`, as used by `App._reset_images`
(main.pyw lines 330-332, called by `_command_option_set_deque_limit` and
`_command_view_remove_all`): element-wise append with discard from the left
once full. -/
def dequeFrom (maxlen : Nat) (items : List α) : List α :=
  items.foldl (dequePush maxlen) []

theorem foldl_dequePush (m : Nat) (xs : List α) :
    ∀ acc : List α, acc.length ≤ m →
      xs.foldl (dequePush m) acc = (acc ++ xs).drop (acc.length + xs.length - m) := by
  induction xs with
  | nil =>
    intro acc h
    simp only [List.foldl_nil, List.append_nil, List.length_nil, Nat.add_zero]
    rw [show acc.length - m = 0 by omega, List.drop_zero]
  | cons x t ih =>
    intro acc h
    have hkle : acc.length + 1 - m ≤ (acc ++ [x]).length := by
      simp only [List.length_append, List.length_singleton]
      omega
    have hle : (dequePush m acc x).length ≤ m := by
      simp only [dequePush, List.length_drop, List.length_append,
        List.length_singleton]
      omega
    rw [List.foldl_cons, ih (dequePush m acc x) hle]
    rw [show dequePush m acc x = (acc ++ [x]).drop (acc.length + 1 - m) from rfl]
    rw [← List.drop_append_of_le_length hkle, List.drop_drop]
    rw [show (acc ++ [x]) ++ t = acc ++ x :: t by simp]
    congr 1
    simp only [List.length_drop, List.length_append, List.length_singleton,
      List.length_cons, List.length_nil]
    omega

theorem dequeFrom_eq_drop (m : Nat) (l : List α) :
    dequeFrom m l = l.drop (l.length - m) := by
  simpa using foldl_dequePush m l [] (by simp)

/-- C4 counterexample: rebuilding the history with a smaller `maxlen`
(`App._reset_images` after a limit change) keeps the LAST `newLimit` items
and so evicts the earliest items regardless of their pinned flag: on the
two-item history `[pinned, unpinned]` resized to limit 1, the pinned item is
evicted and the unpinned one kept — the claim would keep the pinned item and
evict the unpinned one. -/
theorem resize_evicts_pinned_cex :
    dequeFrom 1 [imgP, imgU] = [imgU] ∧
      imgP ∈ [imgP, imgU] ∧ pinnedOf imgP = true ∧
      imgP ∉ dequeFrom 1 [imgP, imgU] := by
  decide

/-- C4 amended: resizing rebuilds the history as the most-recently-inserted
`min(size, newLimit)` items (the suffix of the order), evicting the earliest
items first regardless of their pinned flag; in particular, resizing any
history (pinned or not) below its size keeps exactly the most-recently
inserted `newLimit` items, and the new size never exceeds the new limit. -/
theorem resize_keeps_last_items (m : Nat) (l : List ImageComposite) :
    dequeFrom m l = l.drop (l.length - m) ∧
      (dequeFrom m l).length = min l.length m ∧
      (dequeFrom m l).length ≤ m := by
  refine ⟨dequeFrom_eq_drop m l, ?_, ?_⟩ <;>
    simp [dequeFrom_eq_drop, List.length_drop] <;> omega

/-- Python `deque.rotate(n)` (used by `App._command_view_rotate`,
`_command_view_rrotate` and `_command_view_nrotate`, main.pyw lines 406-424):
a positive `n` rotates to the right by `n` positions, a negative `n` to the
left.  A right rotation by `n` on a sequence of length `s` is a left rotation
(`List.rotate`) by `(-n) mod s`. -/
def dequeRotate (n : Int) (l : List α) : List α :=
  l.rotate (((-n) % (l.length : Int)).toNat)

theorem dequeRotate_length (n : Int) (l : List α) :
    (dequeRotate n l).length = l.length := by
  simp [dequeRotate, List.length_rotate]

/-- C7: rotation is a circular shift: it permutes the items (creating,
removing and re-pinning nothing), is a no-op on an empty or single-item
history, is insensitive to the magnitude of `n` beyond `n` modulo the size,
and `rotate(k)` followed by `rotate(-k)` restores the original order. -/
theorem rotate_properties (n : Int) (l : List ImageComposite) :
    List.Perm (dequeRotate n l) l ∧
    (l.length ≤ 1 → dequeRotate n l = l) ∧
    dequeRotate (-n) (dequeRotate n l) = l ∧
    dequeRotate n l = dequeRotate (n % (l.length : Int)) l := by
  refine ⟨List.rotate_perm l _, ?_, ?_, ?_⟩
  · intro hlen
    match l, hlen with
    | [], _ => simp [dequeRotate]
    | [x], _ => simp [dequeRotate, Int.emod_one]
  · by_cases hs : l.length = 0
    · have hl : l = [] := List.length_eq_zero.mp hs
      subst hl
      simp [dequeRotate]
    · have hs0 : ((l.length : Int)) ≠ 0 := by exact_mod_cast hs
      have hpos : (0 : Int) < (l.length : Int) := by
        have : 0 < l.length := Nat.pos_of_ne_zero hs
        exact_mod_cast this
      have h1 : (0 : Int) ≤ (-n) % (l.length : Int) := Int.emod_nonneg _ hs0
      have h2 : (0 : Int) ≤ n % (l.length : Int) := Int.emod_nonneg _ hs0
      unfold dequeRotate
      rw [List.length_rotate, neg_neg, List.rotate_rotate]
      have hAB : ((-n) % (l.length : Int) + n % (l.length : Int)) % (l.length : Int) = 0 := by
        rw [← Int.add_emod]
        simp
      have hcast :
          (((((-n) % (l.length : Int)).toNat + (n % (l.length : Int)).toNat) % l.length : Nat) : Int) =
            ((-n) % (l.length : Int) + n % (l.length : Int)) % (l.length : Int) := by
        push_cast [Int.toNat_of_nonneg h1, Int.toNat_of_nonneg h2]
        rfl
      have hmod : (((-n) % (l.length : Int)).toNat + (n % (l.length : Int)).toNat) % l.length = 0 := by
        have := hcast.trans hAB
        exact_mod_cast this
      rw [← List.rotate_mod, hmod, List.rotate_zero]
  · have key : (-(n % (l.length : Int))) % (l.length : Int) = (-n) % (l.length : Int) := by
      have hdiv := Int.emod_add_ediv n (l.length : Int)
      have hneg : -(n % (l.length : Int)) = -n + (l.length : Int) * (n / (l.length : Int)) := by
        linarith
      rw [hneg, Int.add_mul_emod_self_left]
    simp [dequeRotate, key]

theorem rotate_properties_witness :
    dequeRotate (-3) (dequeRotate 3 [imgP, imgU]) = [imgP, imgU] ∧
      dequeRotate 5 ([] : List ImageComposite) = [] :=
  ⟨(rotate_properties 3 [imgP, imgU]).2.2.1,
    (rotate_properties 5 ([] : List ImageComposite)).2.1 (by decide)⟩

/-- The operations the App performs on its image history deque:
`add_image` (insert), `add_images` / `deque_extend_with_predicate`
(insertMany), `_command_view_remove_all` (remove all unpinned),
the View-menu rotations, and the collect-limit change (resize). -/
inductive HistOp where
  | insert (x : ImageComposite)
  | insertMany (xs : List ImageComposite)
  | removeAllUnpinned
  | rotate (n : Int)
  | resize (m : Nat)

/-- The history: the deque contents (`App._images`) together with its
capacity (`App._deque_collect_limit`, which is also the deque `maxlen`). -/
structure HistState where
  items : List ImageComposite
  limit : Nat

/-- The effect of each history operation, read off the source:
insert and insertMany go through `deque_append_with_predicate` with the
pinned predicate; remove-all keeps the pinned items and rebuilds the deque
(`_reset_images`); rotate is `deque.rotate`; resize sets the new limit and
rebuilds the deque with it (`_command_option_set_deque_limit`). -/
def applyHistOp : HistOp → HistState → HistState
  | HistOp.insert x, s =>
    ⟨deque_append_with_predicate s.limit pinnedOf s.items x, s.limit⟩
  | HistOp.insertMany xs, s =>
    ⟨xs.foldl (fun l x => deque_append_with_predicate s.limit pinnedOf l x) s.items,
      s.limit⟩
  | HistOp.removeAllUnpinned, s =>
    ⟨dequeFrom s.limit (s.items.filter pinnedOf), s.limit⟩
  | HistOp.rotate n, s => ⟨dequeRotate n s.items, s.limit⟩
  | HistOp.resize m, s => ⟨dequeFrom m s.items, m⟩

theorem removeFirstNot_length (p : α → Bool) (dq : List α)
    (h : dq.any (fun y => !p y) = true) :
    (removeFirstNot p dq).length + 1 = dq.length := by
  induction dq with
  | nil => simp at h
  | cons a t ih =>
    by_cases ha : p a = true
    · simp only [removeFirstNot, ha, if_pos, List.length_cons]
      have ht : t.any (fun y => !p y) = true := by
        simp only [List.any_cons, ha, Bool.not_true, Bool.false_or] at h
        exact h
      rw [← ih ht]
    · simp [removeFirstNot, ha]

theorem deque_append_length (m : Nat) (p : α → Bool) (dq : List α) (x : α)
    (h : dq.length ≤ m) :
    (deque_append_with_predicate m p dq x).length ≤ m := by
  rw [deque_append_with_predicate]
  split_ifs with h1 h2
  · have := removeFirstNot_length p dq h2
    simp only [List.length_append, List.length_singleton]
    omega
  · exact h
  · simp only [List.length_append, List.length_singleton]
    omega

theorem deque_extend_length (m : Nat) (p : α → Bool) (xs : List α) :
    ∀ dq : List α, dq.length ≤ m →
      (xs.foldl (fun l x => deque_append_with_predicate m p l x) dq).length ≤ m := by
  induction xs with
  | nil => intro dq h; simpa using h
  | cons x t ih =>
    intro dq h
    rw [List.foldl_cons]
    exact ih _ (deque_append_length m p dq x h)

/-- C9: the history invariant `size() <= limit` is preserved by every history
operation — insert, insertMany, removeAllUnpinned, rotate, and resize
(including resize to a smaller limit, which truncates the deque). -/
theorem history_size_invariant (op : HistOp) (s : HistState)
    (h : s.items.length ≤ s.limit) :
    (applyHistOp op s).items.length ≤ (applyHistOp op s).limit := by
  cases op with
  | insert x => exact deque_append_length s.limit pinnedOf s.items x h
  | insertMany xs => exact deque_extend_length s.limit pinnedOf xs s.items h
  | removeAllUnpinned =>
    simp only [applyHistOp, dequeFrom_eq_drop, List.length_drop]
    omega
  | rotate n =>
    simp only [applyHistOp, dequeRotate_length]
    exact h
  | resize m =>
    simp only [applyHistOp, dequeFrom_eq_drop, List.length_drop]
    omega

theorem history_size_invariant_witness :
    ([imgP, imgU].length ≤ 2) ∧
      ((applyHistOp (HistOp.insert imgN) ⟨[imgP, imgU], 2⟩).items.length ≤
        (applyHistOp (HistOp.insert imgN) ⟨[imgP, imgU], 2⟩).limit) :=
  ⟨by decide, history_size_invariant (HistOp.insert imgN) ⟨[imgP, imgU], 2⟩ (by decide)⟩

/-- The state of the polling subsystem: the translator's stored previous
snapshot (`XInput.__prev_states`), the contents of the event queue
(`XInput.__event_queue`, FIFO), the polling flag (`App._xinput_poll`), and
the trace of events drained so far by `XInput.__handle_events` (each drained
event is dispatched to every registered callback whose pattern matches). -/
structure PollState where
  prev : MappedStates
  queue : List Event
  polling : Bool
  handled : List Event

/-- `XInput.update` (main.pyw lines 150-153), as run by one timer tick of
`App.__poll_for_xinput`: poll the device (`none` models an unavailable
controller), feed a fresh snapshot through `__update_states` (which enqueues
the translated events), then `__handle_events` drains the entire queue in
FIFO order, dispatching each drained event. -/
def xupdate (s : PollState) (snap : Option MappedStates) : PollState :=
  match snap with
  | some ns =>
    ⟨(updateStates s.prev ns).1, [], s.polling,
      s.handled ++ s.queue ++ (updateStates s.prev ns).2⟩
  | none => ⟨s.prev, [], s.polling, s.handled ++ s.queue⟩

/-- The transitions of the polling subsystem (`App.__poll_for_xinput` and the
`LT/RT take?` checkbutton): a timer tick runs `XInput.update` while polling
is on; unchecking the option cancels the pending timer callback and touches
nothing else; checking it runs `__poll_for_xinput` once immediately, which
runs `XInput.update` and reschedules. -/
inductive PollStep : PollState → PollState → Prop
  | tick (s : PollState) (snap : Option MappedStates) (h : s.polling = true) :
    PollStep s (xupdate s snap)
  | pollOff (s : PollState) :
    PollStep s ⟨s.prev, s.queue, false, s.handled⟩
  | pollOn (s : PollState) (snap : Option MappedStates) :
    PollStep s (xupdate ⟨s.prev, s.queue, true, s.handled⟩ snap)

/-- The startup state: default previous snapshot, empty queue, polling off
(the `_xinput_poll` BooleanVar starts False), nothing handled. -/
def initialPollState : PollState := ⟨defaultStates, [], false, []⟩

/-- The states the polling subsystem can reach from startup. -/
inductive PollReachable : PollState → Prop
  | init : PollReachable initialPollState
  | step {s t : PollState} (hs : PollReachable s) (hst : PollStep s t) :
    PollReachable t

/-- C5: in every reachable state the event queue is empty — every event is
drained by `__handle_events` within the very tick that enqueued it.  Hence
when polling is turned off there are no queued events left to drain, and any
tick (including the first one after polling is re-enabled) hands its
callbacks exactly the events translated from that tick's own snapshot: no
handler is ever invoked for an event queued before polling was disabled. -/
theorem poll_off_no_stale_handling (s : PollState) (h : PollReachable s) :
    s.queue = [] ∧
      (∀ ns, (xupdate s (some ns)).handled =
        s.handled ++ (updateStates s.prev ns).2) ∧
      (xupdate s none).handled = s.handled := by
  have hq : s.queue = [] := by
    induction h with
    | init => rfl
    | step hs hst ih =>
      cases hst with
      | tick snap h => cases snap <;> rfl
      | pollOff => exact ih
      | pollOn snap => cases snap <;> rfl
  refine ⟨hq, fun ns => ?_, ?_⟩
  · simp [xupdate, hq]
  · simp [xupdate, hq]

theorem poll_off_no_stale_handling_witness :
    (xupdate ⟨defaultStates, [], true, []⟩ (some msNext1)).queue = [] ∧
      (xupdate initialPollState (some msNext1)).handled =
        initialPollState.handled ++ (updateStates initialPollState.prev msNext1).2 :=
  ⟨(poll_off_no_stale_handling (xupdate ⟨defaultStates, [], true, []⟩ (some msNext1))
      (PollReachable.step PollReachable.init
        (PollStep.pollOn initialPollState (some msNext1)))).1,
    (poll_off_no_stale_handling initialPollState PollReachable.init).2.1 msNext1⟩

/-- Outcome of one invocation of the registered LT/RT take-handler: the
history after the call, the updated `_xinput_last_time`, and whether a
screenshot capture happened. -/
structure TakeResult where
  history : List ImageComposite
  lastTime : ℚ
  captured : Bool
deriving Repr

/-- `App._xinput_ltrt_command_action_take` (main.pyw lines 589-596), with
clock readings modelled as rationals: return early if the cooldown since the
last capture has not elapsed; return early unless both triggers read exactly
255; otherwise beep, capture a screenshot (`_command_action_take`, which
inserts the new item through `deque_append_with_predicate`), and record the
capture time. -/
def ltrtTake (now lastTime cooldown : ℚ) (states : MappedStates)
    (limit : Nat) (hist : List ImageComposite) (item : ImageComposite) :
    TakeResult :=
  if now - lastTime < cooldown then ⟨hist, lastTime, false⟩
  else if states.LeftTrigger ≠ 255 ∨ states.RightTrigger ≠ 255 then
    ⟨hist, lastTime, false⟩
  else ⟨deque_append_with_predicate limit pinnedOf hist item, now, true⟩

/-- C10: the take-handler captures only when both triggers read exactly 255
and the cooldown since the last capture has elapsed; a full pull of a single
trigger — which does translate to a press event matching a registered
binding, so the handler runs — never captures and leaves the history (and
the capture timestamp) unchanged. -/
theorem ltrt_take_requires_both_triggers (now lastTime cooldown : ℚ)
    (states : MappedStates) (limit : Nat) (hist : List ImageComposite)
    (item : ImageComposite) :
    ((ltrtTake now lastTime cooldown states limit hist item).captured = true →
      states.LeftTrigger = 255 ∧ states.RightTrigger = 255 ∧
        cooldown ≤ now - lastTime) ∧
    ((states.LeftTrigger = 255 ∧ states.RightTrigger ≠ 255) ∨
        (states.RightTrigger = 255 ∧ states.LeftTrigger ≠ 255) →
      (ltrtTake now lastTime cooldown states limit hist item).captured = false ∧
        (ltrtTake now lastTime cooldown states limit hist item).history = hist ∧
        (ltrtTake now lastTime cooldown states limit hist item).lastTime = lastTime) ∧
    (∀ prev : MappedStates, prev.PacketNumber ≠ states.PacketNumber →
      prev.LeftTrigger ≠ states.LeftTrigger → states.LeftTrigger = 255 →
      ⟨EvType.press, EvKey.leftTrigger⟩ ∈ (updateStates prev states).2 ∧
        eventMatch ⟨EvType.press, EvKey.leftTrigger⟩
          ⟨EvType.press, EvKey.leftTrigger⟩ = true) := by
  refine ⟨?_, ?_, ?_⟩
  · intro h
    by_cases h1 : now - lastTime < cooldown
    · rw [ltrtTake, if_pos h1] at h
      simp at h
    · by_cases h2 : states.LeftTrigger ≠ 255 ∨ states.RightTrigger ≠ 255
      · rw [ltrtTake, if_neg h1, if_pos h2] at h
        simp at h
      · push_neg at h2
        exact ⟨h2.1, h2.2, by linarith⟩
  · intro hcase
    have h2 : states.LeftTrigger ≠ 255 ∨ states.RightTrigger ≠ 255 := by
      rcases hcase with ⟨_, hr⟩ | ⟨_, hl⟩
      · exact Or.inr hr
      · exact Or.inl hl
    by_cases h1 : now - lastTime < cooldown
    · rw [ltrtTake, if_pos h1]
      exact ⟨rfl, rfl, rfl⟩
    · rw [ltrtTake, if_neg h1, if_pos h2]
      exact ⟨rfl, rfl, rfl⟩
  · intro prev hpk hlchg hl255
    refine ⟨?_, rfl⟩
    have hev : (updateStates prev states).2 =
        [(⟨EvType.press, EvKey.leftTrigger⟩ : Event)] ++
          (if prev.RightTrigger ≠ states.RightTrigger then
            if states.RightTrigger = 255 then [⟨EvType.press, EvKey.rightTrigger⟩]
            else if states.RightTrigger = 0 then [⟨EvType.release, EvKey.rightTrigger⟩]
            else []
          else []) := by
      rw [updateStates, if_neg hpk, if_pos hlchg, if_pos hl255]
    rw [hev]
    exact List.mem_append_left _ (by simp)

theorem ltrt_take_requires_both_triggers_witness :
    ((ltrtTake 1 0 (1 / 2) msNext1 2 [imgP] imgN).captured = false ∧
        (ltrtTake 1 0 (1 / 2) msNext1 2 [imgP] imgN).history = [imgP] ∧
        (ltrtTake 1 0 (1 / 2) msNext1 2 [imgP] imgN).lastTime = 0) ∧
      ⟨EvType.press, EvKey.leftTrigger⟩ ∈ (updateStates msPrev1 msNext1).2 :=
  ⟨(ltrt_take_requires_both_triggers 1 0 (1 / 2) msNext1 2 [imgP] imgN).2.1
      (Or.inl ⟨by decide, by decide⟩),
    ((ltrt_take_requires_both_triggers 1 0 (1 / 2) msNext1 2 [imgP] imgN).2.2
      msPrev1 (by decide) (by decide) (by decide)).1⟩

end XiPrtScr
